import Mathlib

set_option autoImplicit false

/-!
Shallow embedding of the core of the soju IRC bouncer (casemapping, the
casemap-keyed name index, the delivered store, upstream/downstream message
handling, the LIST fan-in machinery, registration error classification,
backlog replay, and the highlight test), together with proofs of the
behavioural properties stated about them.

Go strings are byte slices; we model them as lists of natural numbers.
Go maps are modelled as association lists with Go map semantics
(lookup, insert-or-replace, delete); iteration order, which Go leaves
unspecified, is the list order of the model.
-/

/-- Byte strings: a Go string is a byte slice, modelled as a list of naturals
(each below 256 for real inputs; the definitions are total). -/
abbrev Str := List Nat

/-- Bytes of an ASCII literal, for writing concrete inputs in theorems. -/
def strBytes (s : String) : Str := s.data.map Char.toNat

/-- Lookup in a Go map modelled as an association list: the value of the
first pair whose key matches. -/
def mapFind? {K V : Type} [DecidableEq K] : List (K × V) → K → Option V
  | [], _ => none
  | p :: t, k => if p.1 = k then some p.2 else mapFind? t k

/-- Go map membership test. -/
def mapHasKey {K V : Type} [DecidableEq K] (m : List (K × V)) (k : K) : Bool :=
  (mapFind? m k).isSome

/-- Go map assignment m[k] = v: replace the value at an existing key,
otherwise add the binding. -/
def mapSet {K V : Type} [DecidableEq K] (m : List (K × V)) (k : K) (v : V) :
    List (K × V) :=
  if mapHasKey m k then m.map (fun p => if p.1 = k then (k, v) else p)
  else m ++ [(k, v)]

/-- Go delete(m, k). -/
def mapErase {K V : Type} [DecidableEq K] (m : List (K × V)) (k : K) :
    List (K × V) :=
  m.filter (fun p => p.1 ≠ k)

theorem mapFind?_replace_self {K V : Type} [DecidableEq K]
    (m : List (K × V)) (k : K) (v : V) (h : mapHasKey m k = true) :
    mapFind? (m.map (fun p => if p.1 = k then (k, v) else p)) k = some v := by
  induction m with
  | nil => simp [mapHasKey, mapFind?] at h
  | cons p t ih =>
    by_cases hp : p.1 = k
    · simp [mapFind?, hp]
    · simp only [mapHasKey, mapFind?, hp, if_false] at h
      simp only [List.map_cons, hp, if_false, mapFind?]
      exact ih h

theorem mapFind?_replace_ne {K V : Type} [DecidableEq K]
    (m : List (K × V)) (k k' : K) (v : V) (h : k' ≠ k) :
    mapFind? (m.map (fun p => if p.1 = k then (k, v) else p)) k' = mapFind? m k' := by
  induction m with
  | nil => rfl
  | cons p t ih =>
    by_cases hp : p.1 = k
    · have h1 : p.1 ≠ k' := by rw [hp]; exact Ne.symm h
      simp only [List.map_cons, hp, if_true, mapFind?]
      simp only [Ne.symm h, if_false, h1]
      exact ih
    · simp only [List.map_cons, hp, if_false, mapFind?]
      rw [ih]

theorem mapFind?_append_single_ne {K V : Type} [DecidableEq K]
    (m : List (K × V)) (k k' : K) (v : V) (h : k' ≠ k) :
    mapFind? (m ++ [(k, v)]) k' = mapFind? m k' := by
  induction m with
  | nil => simp [mapFind?, Ne.symm h]
  | cons p t ih =>
    by_cases hp : p.1 = k'
    · simp [mapFind?, hp]
    · simp only [List.cons_append, mapFind?, hp, if_false]
      exact ih

theorem mapFind?_set_self {K V : Type} [DecidableEq K]
    (m : List (K × V)) (k : K) (v : V) : mapFind? (mapSet m k v) k = some v := by
  unfold mapSet
  split
  · exact mapFind?_replace_self m k v (by assumption)
  · induction m with
    | nil => simp [mapFind?]
    | cons p t ih =>
      rename_i h
      rw [mapHasKey, mapFind?] at h
      by_cases hp : p.1 = k
      · simp [hp] at h
      · simp only [List.cons_append, mapFind?, hp, if_false] at ih ⊢
        apply ih
        intro hc
        exact h (by simpa [mapHasKey, hp] using hc)

theorem mapFind?_set_ne {K V : Type} [DecidableEq K]
    (m : List (K × V)) (k k' : K) (v : V) (h : k' ≠ k) :
    mapFind? (mapSet m k v) k' = mapFind? m k' := by
  unfold mapSet
  split
  · exact mapFind?_replace_ne m k k' v h
  · exact mapFind?_append_single_ne m k k' v h

theorem mapFind?_erase_self {K V : Type} [DecidableEq K]
    (m : List (K × V)) (k : K) : mapFind? (mapErase m k) k = none := by
  induction m with
  | nil => rfl
  | cons p t ih =>
    by_cases hp : p.1 = k
    · have he : mapErase (p :: t) k = mapErase t k := by
        simp [mapErase, List.filter_cons, hp]
      rw [he, ih]
    · have he : mapErase (p :: t) k = p :: mapErase t k := by
        simp [mapErase, List.filter_cons, hp]
      rw [he, mapFind?]
      simp only [hp, if_false]
      exact ih

theorem mapFind?_erase_ne {K V : Type} [DecidableEq K]
    (m : List (K × V)) (k k' : K) (h : k' ≠ k) :
    mapFind? (mapErase m k) k' = mapFind? m k' := by
  induction m with
  | nil => rfl
  | cons p t ih =>
    by_cases hp : p.1 = k
    · have he : mapErase (p :: t) k = mapErase t k := by
        simp [mapErase, List.filter_cons, hp]
      rw [he, ih, mapFind?]
      have : p.1 ≠ k' := by rw [hp]; exact Ne.symm h
      simp [this]
    · have he : mapErase (p :: t) k = p :: mapErase t k := by
        simp [mapErase, List.filter_cons, hp]
      rw [he, mapFind?, mapFind?, ih]

/-- Lookup over a key-preserving value rewrite of a Go map. -/
theorem mapFind?_mapValues {K V : Type} [DecidableEq K]
    (m : List (K × V)) (f : V → V) (k : K) :
    mapFind? (m.map (fun p => (p.1, f p.2))) k = (mapFind? m k).map f := by
  induction m with
  | nil => rfl
  | cons p t ih =>
    by_cases hp : p.1 = k
    · simp [mapFind?, hp]
    · simp [mapFind?, hp, ih]

/-- casemapNone: the identity casemapping used before ISUPPORT selects one. -/
def casemapNone (name : Str) : Str := name

/-- Byte action of the ascii casemapping: map A-Z to a-z. -/
def casemapByteASCII (b : Nat) : Nat :=
  if 65 ≤ b ∧ b ≤ 90 then b + 32 else b

/-- casemapASCII of name is the canonical representation of name according to
the ascii casemapping (the Go code rewrites each byte of the string). -/
def casemapASCII (name : Str) : Str := name.map casemapByteASCII

/-- Byte action of the rfc1459 casemapping: A-Z to a-z, and the pairs
left-brace to left-bracket (123 to 91), right-brace to right-bracket
(125 to 93), backslash to pipe (92 to 124), tilde to caret (126 to 94). -/
def casemapByteRFC1459 (b : Nat) : Nat :=
  if 65 ≤ b ∧ b ≤ 90 then b + 32
  else if b = 123 then 91
  else if b = 125 then 93
  else if b = 92 then 124
  else if b = 126 then 94
  else b

/-- casemapRFC1459 of name is the canonical representation of name according
to the rfc1459 casemapping. -/
def casemapRFC1459 (name : Str) : Str := name.map casemapByteRFC1459

/-- Byte action of the rfc1459-strict casemapping: as rfc1459 but without the
tilde-to-caret rule. -/
def casemapByteRFC1459Strict (b : Nat) : Nat :=
  if 65 ≤ b ∧ b ≤ 90 then b + 32
  else if b = 123 then 91
  else if b = 125 then 93
  else if b = 92 then 124
  else b

/-- casemapRFC1459Strict of name is the canonical representation of name
according to the rfc1459-strict casemapping. -/
def casemapRFC1459Strict (name : Str) : Str := name.map casemapByteRFC1459Strict

theorem casemapByteASCII_idem (b : Nat) :
    casemapByteASCII (casemapByteASCII b) = casemapByteASCII b := by
  unfold casemapByteASCII
  split_ifs <;> omega

theorem casemapByteRFC1459_idem (b : Nat) :
    casemapByteRFC1459 (casemapByteRFC1459 b) = casemapByteRFC1459 b := by
  unfold casemapByteRFC1459
  split_ifs <;> omega

theorem casemapByteRFC1459Strict_idem (b : Nat) :
    casemapByteRFC1459Strict (casemapByteRFC1459Strict b) =
      casemapByteRFC1459Strict b := by
  unfold casemapByteRFC1459Strict
  split_ifs <;> omega

theorem listMap_idem_of_byte_idem (f : Nat → Nat)
    (hf : ∀ b, f (f b) = f b) (l : Str) : (l.map f).map f = l.map f := by
  induction l with
  | nil => rfl
  | cons b t ih => simp [hf, ih]

/-- Claim C9: each casemapping function is idempotent, and the rfc1459
casemapping identifies the string FOO followed by the two brace bytes
(70 79 79 123 125) with the string foo followed by the two bracket bytes
(102 111 111 91 93). -/
theorem c9_casemap_idempotent :
    (∀ s : Str, casemapASCII (casemapASCII s) = casemapASCII s) ∧
    (∀ s : Str, casemapRFC1459 (casemapRFC1459 s) = casemapRFC1459 s) ∧
    (∀ s : Str,
      casemapRFC1459Strict (casemapRFC1459Strict s) = casemapRFC1459Strict s) ∧
    casemapRFC1459 [70, 79, 79, 123, 125] = casemapRFC1459 [102, 111, 111, 91, 93] := by
  refine ⟨fun s => ?_, fun s => ?_, fun s => ?_, by decide⟩
  · exact listMap_idem_of_byte_idem casemapByteASCII casemapByteASCII_idem s
  · exact listMap_idem_of_byte_idem casemapByteRFC1459 casemapByteRFC1459_idem s
  · exact listMap_idem_of_byte_idem casemapByteRFC1459Strict
      casemapByteRFC1459Strict_idem s

/-- An entry of the casemap-aware map: the original key as supplied by the
caller, together with the stored value. -/
structure casemapEntry (V : Type) where
  originalKey : Str
  value : V
  deriving DecidableEq

/-- The casemap-aware map: an inner Go map from canonicalized keys to
entries, together with the current casemapping. -/
structure casemapMap (V : Type) where
  innerMap : List (Str × casemapEntry V)
  casemap : Str → Str

/-- newCasemapMap starts empty with the none casemapping. -/
def newCasemapMap (V : Type) : casemapMap V := ⟨[], casemapNone⟩

/-- OriginalKey returns the original key of the entry stored under name. -/
def casemapMap.OriginalKey {V : Type} (cm : casemapMap V) (name : Str) :
    Option Str :=
  (mapFind? cm.innerMap (cm.casemap name)).map casemapEntry.originalKey

/-- Has reports whether an entry is stored under name. -/
def casemapMap.Has {V : Type} (cm : casemapMap V) (name : Str) : Bool :=
  (mapFind? cm.innerMap (cm.casemap name)).isSome

/-- SetValue stores value under name: a fresh entry records name as the
original key, while overwriting an existing entry keeps its original key. -/
def casemapMap.SetValue {V : Type} (cm : casemapMap V) (name : Str) (value : V) :
    casemapMap V :=
  match mapFind? cm.innerMap (cm.casemap name) with
  | none =>
    { cm with innerMap := mapSet cm.innerMap (cm.casemap name) ⟨name, value⟩ }
  | some entry =>
    { cm with
      innerMap := mapSet cm.innerMap (cm.casemap name) ⟨entry.originalKey, value⟩ }

/-- Delete removes the entry stored under name. -/
def casemapMap.Delete {V : Type} (cm : casemapMap V) (name : Str) : casemapMap V :=
  { cm with innerMap := mapErase cm.innerMap (cm.casemap name) }

/-- SetCasemapping swaps the casemapping and rebuilds the inner map by
rehashing every entry under the new casemap of its original key. -/
def casemapMap.SetCasemapping {V : Type} (cm : casemapMap V)
    (newCasemap : Str → Str) : casemapMap V :=
  { casemap := newCasemap,
    innerMap :=
      cm.innerMap.foldl
        (fun acc p => mapSet acc (newCasemap p.2.originalKey) p.2) [] }

/-- Value as implemented by each typed wrapper (upstreamChannelCasemapMap,
channelCasemapMap, membershipsCasemapMap, deliveredCasemapMap, ...): look up
under the current casemap and return the entry value. -/
def casemapMap.Value {V : Type} (cm : casemapMap V) (name : Str) : Option V :=
  (mapFind? cm.innerMap (cm.casemap name)).map casemapEntry.value

theorem casemapMap.Value_SetValue_self {V : Type} (cm : casemapMap V)
    (name : Str) (v : V) : (cm.SetValue name v).Value name = some v := by
  unfold casemapMap.SetValue casemapMap.Value
  cases h : mapFind? cm.innerMap (cm.casemap name) with
  | none => simp [mapFind?_set_self]
  | some e => simp [mapFind?_set_self]

/-- A successful Go map lookup means the pair itself is in the list. -/
theorem mapFind?_mem {K V : Type} [DecidableEq K]
    (m : List (K × V)) (k : K) (v : V) (h : mapFind? m k = some v) :
    (k, v) ∈ m := by
  induction m with
  | nil => simp [mapFind?] at h
  | cons p t ih =>
    rw [mapFind?] at h
    obtain ⟨a, b⟩ := p
    by_cases hp : a = k
    · simp only [hp, if_true, Option.some.injEq] at h
      simp only [hp] at h ⊢
      rw [show b = v from by simpa using h]
      exact List.mem_cons_self (k, v) t
    · simp only [hp, if_false] at h
      exact List.mem_cons_of_mem (a, b) (ih h)

/-- Lookup in the rebuilt inner map: the last entry (in iteration order)
whose rehashed original key matches wins, falling back to the accumulator. -/
theorem mapFind?_rehash {V : Type} (f : Str → Str)
    (l A : List (Str × casemapEntry V)) (K : Str) :
    mapFind? (l.foldl (fun acc p => mapSet acc (f p.2.originalKey) p.2) A) K =
      match l.reverse.find? (fun p => decide (f p.2.originalKey = K)) with
      | some q => some q.2
      | none => mapFind? A K := by
  induction l generalizing A with
  | nil => simp
  | cons p t ih =>
    rw [List.foldl_cons, ih, List.reverse_cons, List.find?_append]
    cases hq : t.reverse.find? (fun p => decide (f p.2.originalKey = K)) with
    | some q => simp
    | none =>
      by_cases hk : f p.2.originalKey = K
      · subst hk
        simp [List.find?, mapFind?_set_self]
      · simp [List.find?, hk, mapFind?_set_ne _ _ _ _ (Ne.symm hk)]

/-- Claim C7 (amended): SetCasemapping preserves an entry of a name-indexed
map provided the rebuild cannot collide it away: if key k currently resolves
to entry e, the new casemap sends k and the original key of e to the same
canonical form, and no other entry rehashes onto that canonical form, then
after SetCasemapping(newCasemap) the same value is still retrievable via
Value(k) under the new casemap. -/
theorem c7_setCasemapping_preserves (V : Type) (cm : casemapMap V)
    (f : Str → Str) (k : Str) (e : casemapEntry V)
    (hfind : mapFind? cm.innerMap (cm.casemap k) = some e)
    (hagree : f k = f e.originalKey)
    (huniq : ∀ p ∈ cm.innerMap, f p.2.originalKey = f e.originalKey → p.2 = e) :
    (cm.SetCasemapping f).Value k = some e.value := by
  unfold casemapMap.SetCasemapping casemapMap.Value
  simp only
  rw [mapFind?_rehash]
  have hmem : (cm.casemap k, e) ∈ cm.innerMap := mapFind?_mem _ _ _ hfind
  cases hfq : cm.innerMap.reverse.find? (fun p => decide (f p.2.originalKey = f k)) with
  | none =>
    exfalso
    have hnone := List.find?_eq_none.mp hfq (cm.casemap k, e) (List.mem_reverse.mpr hmem)
    exact hnone (by simp [hagree])
  | some q =>
    have hqpred := List.find?_some hfq
    have hqmem := List.mem_reverse.mp (List.mem_of_find?_eq_some hfq)
    have hqe : q.2 = e := by
      apply huniq q hqmem
      have : f q.2.originalKey = f k := by simpa using hqpred
      rw [this, hagree]
    simp [hqe]

/-- Claim C7 counterexample: SetCasemapping does not preserve all entries.
With the initial none casemapping, the keys F o o (70 111 111) and
f o o (102 111 111) hold two distinct entries; after SetCasemapping(ascii)
both rehash onto the same canonical key, so one value is lost. Moreover,
under the rfc1459 casemapping the key f o o left-brace (102 111 111 123)
resolves the entry stored as F O O left-bracket (70 79 79 91), but after
SetCasemapping(ascii) that alias no longer resolves at all. -/
theorem c7_counterexample :
    ((((newCasemapMap String).SetValue [70,111,111] "1").SetValue
        [102,111,111] "2").Value [70,111,111] = some "1") ∧
    ((((newCasemapMap String).SetValue [70,111,111] "1").SetValue
        [102,111,111] "2").Value [102,111,111] = some "2") ∧
    ¬((((((newCasemapMap String).SetValue [70,111,111] "1").SetValue
        [102,111,111] "2").SetCasemapping casemapASCII).Value
          [70,111,111] = some "1") ∧
      (((((newCasemapMap String).SetValue [70,111,111] "1").SetValue
        [102,111,111] "2").SetCasemapping casemapASCII).Value
          [102,111,111] = some "2")) ∧
    ((((newCasemapMap String).SetCasemapping casemapRFC1459).SetValue
        [70,79,79,91] "9").Value [102,111,111,123] = some "9") ∧
    (((((newCasemapMap String).SetCasemapping casemapRFC1459).SetValue
        [70,79,79,91] "9").SetCasemapping casemapASCII).Value
          [102,111,111,123] = none) := by
  refine ⟨by decide, by decide, ?_, by decide, by decide⟩
  intro h
  exact absurd h (by decide)

/-- Witness for the amended claim C7 at a concrete map: a single entry
stored under F o o with the none casemapping survives a swap to ascii. -/
theorem c7_setCasemapping_preserves_witness :
    (((newCasemapMap String).SetValue [70,111,111] "1").SetCasemapping
      casemapASCII).Value [70,111,111] = some "1" :=
  c7_setCasemapping_preserves String
    ((newCasemapMap String).SetValue [70,111,111] "1") casemapASCII
    [70,111,111] ⟨[70,111,111], "1"⟩ (by decide) (by decide) (by decide)

/-- strStartsWith pre s tests whether s begins with the byte string pre. -/
def strStartsWith (pre s : Str) : Bool := decide (s.take pre.length = pre)

/-- strings.Index modelled on byte strings: the byte offset of the first
occurrence of sub in s (none for the Go result -1); the empty substring
matches at offset 0. -/
def strIndexNat : Str → Str → Option Nat
  | s, sub =>
    if strStartsWith sub s then some 0
    else
      match s with
      | [] => none
      | _ :: t =>
        match strIndexNat t sub with
        | some i => some (i + 1)
        | none => none

/-- A byte that is not a UTF-8 continuation byte starts a rune. -/
def runeStart (b : Nat) : Bool := decide (¬(128 ≤ b ∧ b ≤ 191))

/-- utf8.DecodeRuneInString, modelled from the Go standard library (an
external collaborator): the scalar value of the first rune of the byte
string, or the replacement character 65533 on empty or malformed input.
Overlong and surrogate checks are omitted; the claims only exercise
ASCII and empty inputs, on which this model is exact. -/
def decodeRune : Str → Nat
  | [] => 65533
  | b0 :: rest =>
    if b0 < 128 then b0
    else if 194 ≤ b0 ∧ b0 ≤ 223 then
      match rest with
      | b1 :: _ =>
        if 128 ≤ b1 ∧ b1 ≤ 191 then (b0 - 192) * 64 + (b1 - 128) else 65533
      | [] => 65533
    else if 224 ≤ b0 ∧ b0 ≤ 239 then
      match rest with
      | b1 :: b2 :: _ =>
        if (128 ≤ b1 ∧ b1 ≤ 191) ∧ (128 ≤ b2 ∧ b2 ≤ 191) then
          (b0 - 224) * 4096 + (b1 - 128) * 64 + (b2 - 128)
        else 65533
      | _ => 65533
    else if 240 ≤ b0 ∧ b0 ≤ 244 then
      match rest with
      | b1 :: b2 :: b3 :: _ =>
        if (128 ≤ b1 ∧ b1 ≤ 191) ∧ (128 ≤ b2 ∧ b2 ≤ 191) ∧ (128 ≤ b3 ∧ b3 ≤ 191) then
          (b0 - 240) * 262144 + (b1 - 128) * 4096 + (b2 - 128) * 64 + (b3 - 128)
        else 65533
      | _ => 65533
    else 65533

/-- Helper for decodeLastRune: walk backwards (rev is the reversed remaining
bytes) collecting at most three continuation bytes before a rune start. -/
def decodeLastRuneAux : Str → Str → Nat → Nat
  | [], _, _ => 65533
  | b :: suffix, rev, fuel =>
    if runeStart b then decodeRune (b :: suffix)
    else
      match rev, fuel with
      | r :: rrest, f + 1 => decodeLastRuneAux (r :: b :: suffix) rrest f
      | _, _ => 65533

/-- utf8.DecodeLastRuneInString, modelled from the Go standard library: the
scalar value of the last rune of the byte string, or 65533 on empty or
malformed input. -/
def decodeLastRune (s : Str) : Nat :=
  match s.reverse with
  | [] => 65533
  | b0 :: rev => decodeLastRuneAux [b0] rev 3

/-- unicode.IsLetter restricted to ASCII, modelled from the Go standard
library; the claims only exercise ASCII text. -/
def isLetter (r : Nat) : Bool := decide ((65 ≤ r ∧ r ≤ 90) ∨ (97 ≤ r ∧ r ≤ 122))

/-- unicode.IsNumber restricted to ASCII, modelled from the Go standard
library. -/
def isNumber (r : Nat) : Bool := decide (48 ≤ r ∧ r ≤ 57)

/-- isWordBoundary: dash, underscore and pipe are not boundaries, the
no-break space (160) is, and otherwise any non-letter non-number rune is. -/
def isWordBoundary (r : Nat) : Bool :=
  if r = 45 ∨ r = 95 ∨ r = 124 then false
  else if r = 160 then true
  else !(isLetter r) && !(isNumber r)

/-- isHighlight with explicit fuel, one unit per iteration of the Go for
loop: find the next occurrence of nick in text; report a highlight when it
sits between word boundaries, otherwise continue after the occurrence.
The result none means the loop has not returned within the given fuel. -/
def isHighlightFuel : Nat → Str → Str → Option Bool
  | 0, _, _ => none
  | fuel + 1, text, nick =>
    match strIndexNat text nick with
    | none => some false
    | some i =>
      let left := if 0 < i then decodeLastRune (text.take i) else 0
      let right :=
        if i < text.length then decodeRune (text.drop (i + nick.length)) else 0
      if isWordBoundary left && isWordBoundary right then some true
      else isHighlightFuel fuel (text.drop (i + nick.length)) nick

theorem isHighlightFuel_abc_empty (fuel : Nat) :
    isHighlightFuel fuel [97, 98, 99] [] = none := by
  induction fuel with
  | zero => rfl
  | succ f ih =>
    show isHighlightFuel f [97, 98, 99] [] = none
    exact ih

/-- Claim C10 counterexample: the highlight test does not terminate on every
input. With the empty nick and the text a b c (97 98 99), the occurrence
index is always 0 and the right neighbour is the letter a, so no iteration
returns and the text is never shortened: no amount of fuel makes the loop
return. -/
theorem c10_counterexample :
    ¬ ∃ fuel, (isHighlightFuel fuel [97, 98, 99] []).isSome = true := by
  rintro ⟨fuel, h⟩
  rw [isHighlightFuel_abc_empty fuel] at h
  simp at h

theorem strIndexNat_le (s sub : Str) :
    ∀ i : Nat, strIndexNat s sub = some i → i + sub.length ≤ s.length := by
  induction s with
  | nil =>
    intro i h
    rw [strIndexNat] at h
    by_cases hs : strStartsWith sub [] = true
    · rw [if_pos hs] at h
      have hsub : sub = [] := by
        have := of_decide_eq_true hs
        simpa using this.symm
      injection h with hi
      simp [hsub, ← hi]
    · rw [if_neg hs] at h
      exact absurd h (by simp)
  | cons a t ih =>
    intro i h
    rw [strIndexNat] at h
    by_cases hs : strStartsWith sub (a :: t) = true
    · rw [if_pos hs] at h
      injection h with hi
      have htake := of_decide_eq_true hs
      have : sub.length ≤ (a :: t).length := by
        rw [← htake, List.length_take]
        simp [Nat.min_le_right]
      omega
    · rw [if_neg hs] at h
      cases hr : strIndexNat t sub with
      | none => rw [hr] at h; exact absurd h (by simp)
      | some j =>
        rw [hr] at h
        injection h with hi
        have := ih j hr
        simp only [List.length_cons]
        omega

theorem isHighlightFuel_total (nick : Str) (h : nick ≠ []) :
    ∀ (fuel : Nat) (text : Str), text.length + 1 ≤ fuel →
      (isHighlightFuel fuel text nick).isSome = true := by
  intro fuel
  induction fuel with
  | zero => intro text ht; omega
  | succ f ih =>
    intro text ht
    rw [isHighlightFuel]
    cases hidx : strIndexNat text nick with
    | none => simp
    | some i =>
      show (if (isWordBoundary (if 0 < i then decodeLastRune (text.take i) else 0) &&
              isWordBoundary
                (if i < text.length then decodeRune (text.drop (i + nick.length))
                 else 0)) = true
            then some true
            else isHighlightFuel f (text.drop (i + nick.length)) nick).isSome = true
      by_cases hb : (isWordBoundary (if 0 < i then decodeLastRune (text.take i) else 0) &&
              isWordBoundary
                (if i < text.length then decodeRune (text.drop (i + nick.length))
                 else 0)) = true
      · rw [if_pos hb]
        rfl
      · rw [if_neg hb]
        have hnick : 1 ≤ nick.length := by
          cases nick with
          | nil => exact absurd rfl h
          | cons a t => simp
        have hle := strIndexNat_le text nick i hidx
        apply ih
        rw [List.length_drop]
        omega

/-- Claim C10 (amended): the highlight test terminates for every pair of
byte strings whose nick is nonempty: fuel text.length + 1 always makes the
loop return, since every iteration that does not return drops at least one
byte from text. (With the empty nick the loop can run forever, see the
counterexample.) -/
theorem c10_isHighlight_terminates (text nick : Str) (h : nick ≠ []) :
    (isHighlightFuel (text.length + 1) text nick).isSome = true :=
  isHighlightFuel_total nick h (text.length + 1) text (Nat.le_refl _)

/-- Witness for the amended claim C10 at text a b c (97 98 99) and
nick b (98). -/
theorem c10_isHighlight_terminates_witness :
    ([98] : Str) ≠ [] ∧
      (isHighlightFuel 4 [97, 98, 99] [98]).isSome = true :=
  ⟨by decide, c10_isHighlight_terminates [97, 98, 99] [98] (by decide)⟩

/-- An IRC message: tags, the name part of the optional source, the command,
and the parameters. Commands and tag keys are ASCII protocol words, kept as
Lean strings; entity names, free text and tag values in parameters are byte
strings. Only the name of the message source is modelled; its user and host
parts are never inspected by the properties below. -/
structure Message where
  tags : List (String × Str)
  source : Option Str
  command : String
  params : List Str
  deriving DecidableEq

/-- Capability lookup dc.caps[name] on a Go map from cap names to booleans:
a missing key reads as false. -/
def capEnabled (caps : List (String × Bool)) (name : String) : Bool :=
  (mapFind? caps name).getD false

/-- downstreamConn.SendMessage: capability downgrading applied to every
outbound message on a downstream connection. Without message-tags, a TAGMSG
is dropped entirely (result none) and every tag other than a time tag kept
under server-time is deleted; then, without extended-join, a JOIN keeps only
its first parameter. The result is the message actually written. -/
def SendMessage (caps : List (String × Bool)) (msg0 : Message) : Option Message :=
  let afterTags : Option Message :=
    if capEnabled caps "message-tags" then some msg0
    else if msg0.command = "TAGMSG" then none
    else
      some { msg0 with
             tags := msg0.tags.filter
               (fun p => decide (p.1 = "time") && capEnabled caps "server-time") }
  match afterTags with
  | none => none
  | some m =>
    if m.command = "JOIN" ∧ capEnabled caps "extended-join" = false then
      some { m with params := m.params.take 1 }
    else some m

/-- Claim C8: on a downstream without message-tags, TAGMSG is dropped and
every surviving tag is a time tag kept under server-time; on a downstream
without extended-join, a JOIN is truncated to its first parameter. -/
theorem c8_sendMessage_filters (caps : List (String × Bool)) (msg : Message) :
    (capEnabled caps "message-tags" = false →
      (msg.command = "TAGMSG" → SendMessage caps msg = none) ∧
      (∀ m, SendMessage caps msg = some m →
        ∀ p ∈ m.tags, p.1 = "time" ∧ capEnabled caps "server-time" = true)) ∧
    (capEnabled caps "extended-join" = false → msg.command = "JOIN" →
      ∀ m, SendMessage caps msg = some m → m.params = msg.params.take 1) := by
  constructor
  · intro hmt
    constructor
    · intro htag
      unfold SendMessage
      simp [hmt, htag]
    · intro m hm p hp
      unfold SendMessage at hm
      simp only [hmt, Bool.false_eq_true, if_false] at hm
      by_cases htag : msg.command = "TAGMSG"
      · simp [htag] at hm
      · simp only [htag, if_false] at hm
        split at hm
        · injection hm with hm
          rw [← hm] at hp
          simp only [List.mem_filter] at hp
          have := hp.2
          simp only [Bool.and_eq_true, decide_eq_true_eq] at this
          exact this
        · injection hm with hm
          rw [← hm] at hp
          simp only [List.mem_filter] at hp
          have := hp.2
          simp only [Bool.and_eq_true, decide_eq_true_eq] at this
          exact this
  · intro hej hjoin m hm
    unfold SendMessage at hm
    by_cases hmt : capEnabled caps "message-tags" = true
    · simp only [hmt, if_true] at hm
      rw [if_pos ⟨hjoin, hej⟩] at hm
      injection hm with hm
      rw [← hm]
    · simp only [hmt, Bool.false_eq_true, if_false] at hm
      have htag : ¬ msg.command = "TAGMSG" := by rw [hjoin]; decide
      simp only [htag, if_false] at hm
      rw [if_pos ⟨hjoin, hej⟩] at hm
      injection hm with hm
      rw [← hm]

/-- Witness for claim C8: with no caps enabled, a TAGMSG with a time and a
msgid tag is dropped, and a JOIN with two parameters is truncated to its
first parameter. -/
theorem c8_sendMessage_filters_witness :
    SendMessage [] ⟨[("time", [49]), ("msgid", [50])], none, "TAGMSG", [[35]]⟩ =
      none ∧
    (Message.mk [] none "JOIN" [[35, 97]]).params =
      ([[35, 97], [97, 99, 99]] : List Str).take 1 :=
  ⟨((c8_sendMessage_filters []
      ⟨[("time", [49]), ("msgid", [50])], none, "TAGMSG", [[35]]⟩).1
      (by decide)).1 rfl,
   (c8_sendMessage_filters []
      ⟨[("msgid", [50])], none, "JOIN", [[35, 97], [97, 99, 99]]⟩).2
      (by decide) rfl (Message.mk [] none "JOIN" [[35, 97]]) (by decide)⟩

/-- deliveredClientMap: client name to last delivered internal message ID. -/
abbrev deliveredClientMap := List (String × Str)

/-- deliveredStore: per-target, per-client last-delivered message IDs in a
casemap-aware map (the Get and Set accessors of its deliveredCasemapMap
wrapper behave as Value and SetValue above). -/
structure deliveredStore where
  m : casemapMap deliveredClientMap

/-- newDeliveredStore starts with an empty casemap map. -/
def newDeliveredStore : deliveredStore := ⟨newCasemapMap deliveredClientMap⟩

/-- deliveredStore.LoadID: the delivered ID for (target, clientName), or the
empty string when the target or the client is unknown. -/
def deliveredStore.LoadID (ds : deliveredStore) (target : Str)
    (clientName : String) : Str :=
  match ds.m.Value target with
  | none => []
  | some clients => (mapFind? clients clientName).getD []

/-- deliveredStore.StoreID: record msgID as delivered for (target,
clientName). In Go the inner client map is created on demand and then
mutated in place through the map reference; we model that by storing the
updated inner map back under the same target. -/
def deliveredStore.StoreID (ds : deliveredStore) (target : Str)
    (clientName : String) (msgID : Str) : deliveredStore :=
  match ds.m.Value target with
  | none => ⟨ds.m.SetValue target (mapSet [] clientName msgID)⟩
  | some clients => ⟨ds.m.SetValue target (mapSet clients clientName msgID)⟩

theorem deliveredStore.LoadID_StoreID (ds : deliveredStore) (target : Str)
    (clientName : String) (msgID : Str) :
    (ds.StoreID target clientName msgID).LoadID target clientName = msgID := by
  unfold deliveredStore.StoreID deliveredStore.LoadID
  cases hv : ds.m.Value target with
  | none =>
    simp only [hv, casemapMap.Value_SetValue_self, mapFind?_set_self, Option.getD_some]
  | some clients =>
    simp only [hv, casemapMap.Value_SetValue_self, mapFind?_set_self, Option.getD_some]

/-- Detached-channel filters of the persistent store (database.Filter; the
name dbFilter avoids clashing with the mathematical filters of the ambient
library). -/
inductive dbFilter
  | filterDefault
  | filterMessage
  | filterHighlight
  | filterNone
  deriving DecidableEq

/-- The persistent channel record (database.Channel); only the fields the
properties below inspect are modelled (the persistence store is an external
collaborator). -/
structure Channel where
  Name : Str
  Detached : Bool
  RelayDetached : dbFilter
  deriving DecidableEq

/-- The fields of the current upstream connection that the network-level
helpers read: its nick and the casemapped form of its nick. -/
structure connInfo where
  nick : Str
  nickCM : Str

/-- Runtime adjuncts of a network used by the delivery-receipt and backlog
machinery: the persistent record id, display name (GetName) and nick, the
current upstream connection if any, the current casemap, the casemap-keyed
persistent channel records, and the delivered store. -/
structure network where
  ID : Int
  name : Str
  Nick : Str
  conn : Option connInfo
  casemap : Str → Str
  channels : casemapMap Channel
  delivered : deliveredStore

/-- The per-user state the acknowledgement path touches: the networks list. -/
structure user where
  networks : List network

/-- user.getNetworkByID: the first network whose persistent id matches. -/
def user.getNetworkByID (u : user) (id : Int) : Option network :=
  u.networks.find? (fun n => decide (n.ID = id))

/-- user.loadDelivered reads the delivered ID for (target, clientName) on
the network with the given id, as the backlog machinery does. -/
def user.loadDelivered (u : user) (netID : Int) (target : Str)
    (clientName : String) : Str :=
  match u.getNetworkByID netID with
  | none => []
  | some n => n.delivered.LoadID target clientName

/-- parseMsgID. Modelled from the spec: internal message IDs are produced
and decoded by the message store (an external collaborator, absent from the
sources); an ID identifies the network and the target entity the message
was logged under. We model the ID as the network id byte, a slash byte
(47), then the target entity bytes. -/
def parseMsgID (id : Str) : Option (Int × Str) :=
  match id with
  | netByte :: 47 :: entity => some ((netByte : Int), entity)
  | _ => none

/-- downstreamConn.ackMsgID: parse the message ID, look up the network by
id, and store the ID as delivered for (entity, clientName) on that network.
Malformed IDs and unknown networks are ignored. -/
def ackMsgID (u : user) (clientName : String) (id : Str) : user :=
  match parseMsgID id with
  | none => u
  | some (netID, entity) =>
    match u.getNetworkByID netID with
    | none => u
    | some _ =>
      ⟨u.networks.map (fun n =>
        if n.ID = netID then
          { n with delivered := n.delivered.StoreID entity clientName id }
        else n)⟩

/-- The marker of delivery-receipt PING tokens, the bytes of soju-msgid-. -/
def sojuMsgidToken : Str := strBytes "soju-msgid-"

/-- downstreamConn.sendPing: the token of the PING sent right after a
message carrying the given internal message ID. -/
def sendPing (msgID : Str) : Str := sojuMsgidToken ++ msgID

/-- downstreamConn.handlePong: a PONG token carrying the soju-msgid marker
has the marker stripped and the remainder acknowledged; any other token is
ignored. -/
def handlePong (u : user) (clientName : String) (token : Str) : user :=
  if strStartsWith sojuMsgidToken token then
    ackMsgID u clientName (token.drop sojuMsgidToken.length)
  else u

theorem getNetworkByID_update (l : List network) (netID : Int)
    (upd : network → network) (hID : ∀ x, (upd x).ID = x.ID) (n : network)
    (h : l.find? (fun x => decide (x.ID = netID)) = some n) :
    (l.map (fun x => if x.ID = netID then upd x else x)).find?
      (fun x => decide (x.ID = netID)) = some (upd n) := by
  induction l with
  | nil => simp [List.find?] at h
  | cons x t ih =>
    by_cases hx : x.ID = netID
    · rw [List.find?_cons_of_pos _ (by simpa using hx)] at h
      injection h with h
      rw [List.map_cons, if_pos hx]
      rw [List.find?_cons_of_pos]
      · rw [h]
      · simp [hID, hx]
    · rw [List.find?_cons_of_neg _ (by simpa using hx)] at h
      rw [List.map_cons, if_neg hx]
      rw [List.find?_cons_of_neg _ (by simpa using hx)]
      exact ih h

/-- Claim C1: when a PRIVMSG carrying internal message ID m has been sent
(so the client was pinged with the token soju-msgid-m) and the client PONGs
that token, the PONG handler strips the soju-msgid- marker and stores m for
(target, clientName) on the message's network, and a subsequent LoadID on
the same target and client name returns m. -/
theorem c1_pong_stores_delivered (u : user) (clientName : String) (m : Str)
    (netID : Int) (t : Str) (n : network)
    (hparse : parseMsgID m = some (netID, t))
    (hnet : u.getNetworkByID netID = some n) :
    (handlePong u clientName (sendPing m)).loadDelivered netID t clientName = m := by
  unfold handlePong sendPing
  have hstart : strStartsWith sojuMsgidToken (sojuMsgidToken ++ m) = true := by
    unfold strStartsWith
    simp [List.take_left]
  rw [if_pos hstart, List.drop_left]
  unfold ackMsgID
  rw [hparse]
  simp only
  rw [hnet]
  simp only
  unfold user.loadDelivered user.getNetworkByID
  unfold user.getNetworkByID at hnet
  have hupd := getNetworkByID_update u.networks netID
    (fun x => { x with delivered := x.delivered.StoreID t clientName m })
    (fun x => rfl) n hnet
  simp only at hupd ⊢
  rw [hupd]
  exact deliveredStore.LoadID_StoreID n.delivered t clientName m

/-- Witness for claim C1: one network with id 5, client laptop, message ID
5 slash hash-x; after the PONG the delivered ID for hash-x is that ID. -/
theorem c1_pong_stores_delivered_witness :
    (handlePong
        ⟨[⟨5, [111], [110], none, casemapASCII, newCasemapMap Channel, newDeliveredStore⟩]⟩
        "laptop" (sendPing [5, 47, 35, 120])).loadDelivered 5 [35, 120]
        "laptop" = [5, 47, 35, 120] :=
  c1_pong_stores_delivered
    ⟨[⟨5, [111], [110], none, casemapASCII, newCasemapMap Channel, newDeliveredStore⟩]⟩
    "laptop" [5, 47, 35, 120] 5 [35, 120]
    ⟨5, [111], [110], none, casemapASCII, newCasemapMap Channel, newDeliveredStore⟩ rfl rfl

/-- A channel membership: the mode letter and the prefix character (Sym is
the Prefix byte of the source struct). -/
structure membership where
  Mode : Nat
  Sym : Nat
  deriving DecidableEq

/-- memberships: the ordered membership set of one channel member. -/
abbrev memberships := List membership

/-- An ephemeral joined channel (upstreamChannel, earlier revision of the
upstream file): its name and its member map from nick to membership set,
a plain Go map in this revision. Topic and mode fields not inspected by the
properties below are omitted. -/
structure upstreamChannel where
  Name : Str
  Members : List (Str × memberships)
  deriving DecidableEq

/-- The upstream-connection state the NICK handler touches: our own nick
and the joined channels, keyed by name (plain Go map in this revision). -/
structure upstreamConn where
  nick : Str
  channels : List (Str × upstreamChannel)
  deriving DecidableEq

/-- Per-channel part of the NICK case of upstreamConn.handleMessage: if the
sender is a member, delete its entry and store the new nick with the same
membership set; otherwise leave the channel alone. -/
def handleNickChannel (senderName newNick : Str) (ch : upstreamChannel) :
    upstreamChannel :=
  match mapFind? ch.Members senderName with
  | some ms =>
    { ch with Members := mapSet (mapErase ch.Members senderName) newNick ms }
  | none => ch

/-- upstreamConn.handleMessage, NICK case: when the sender is our own nick,
update it; rename the sender in the member map of every joined channel.
(The appendLog call of this case only logs and is not modelled here.) -/
def handleNick (uc : upstreamConn) (senderName newNick : Str) : upstreamConn :=
  { nick := if senderName = uc.nick then newNick else uc.nick,
    channels := uc.channels.map
      (fun p => (p.1, handleNickChannel senderName newNick p.2)) }

/-- Claim C4 (amended): after handling a NICK from sender P to a new nick
N distinct from P, in every joined channel where P was a member P is gone,
N is a member, and N's membership set is the one P had; and if P was our
own nick then our nick is now N. (For N equal to P the member entry is
deleted and re-added, so the claim as stated fails; see the
counterexample.) -/
theorem c4_nick_renames_members (uc : upstreamConn) (p n : Str) (hpn : p ≠ n) :
    (∀ ch ms, mapFind? ch.Members p = some ms →
      mapFind? (handleNickChannel p n ch).Members p = none ∧
      mapFind? (handleNickChannel p n ch).Members n = some ms) ∧
    (∀ name, mapFind? (handleNick uc p n).channels name =
      (mapFind? uc.channels name).map (handleNickChannel p n)) ∧
    (p = uc.nick → (handleNick uc p n).nick = n) := by
  refine ⟨?_, ?_, ?_⟩
  · intro ch ms hms
    unfold handleNickChannel
    rw [hms]
    constructor
    · simp only
      rw [mapFind?_set_ne _ _ _ _ hpn, mapFind?_erase_self]
    · simp only
      rw [mapFind?_set_self]
  · intro name
    unfold handleNick
    simp only
    exact mapFind?_mapValues uc.channels (handleNickChannel p n) name
  · intro hme
    unfold handleNick
    simp [hme]

/-- Claim C4 counterexample: a NICK whose new nick equals the sender (from
a 97 to a 97, in a channel hash-x where a holds membership o at 111 64)
leaves the sender in the member map, contradicting the claim that after
every NICK the old nick is no longer a member. -/
theorem c4_nick_counterexample :
    (mapFind? (handleNick
        ⟨[97], [([35, 120], ⟨[35, 120], [([97], [⟨111, 64⟩])]⟩)]⟩
        [97] [97]).channels [35, 120]).map
      (fun ch => mapFind? ch.Members [97]) = some (some [⟨111, 64⟩]) := by
  decide

/-- Witness for the amended claim C4: a NICK from a (97) to b (98) in a
channel where a held the membership set o at (111 64). -/
theorem c4_nick_renames_members_witness :
    mapFind? (handleNickChannel [97] [98]
      ⟨[35, 120], [([97], [⟨111, 64⟩])]⟩).Members [97] = none ∧
    mapFind? (handleNickChannel [97] [98]
      ⟨[35, 120], [([97], [⟨111, 64⟩])]⟩).Members [98] = some [⟨111, 64⟩] ∧
    (handleNick ⟨[97], []⟩ [97] [98]).nick = [98] :=
  ⟨((c4_nick_renames_members ⟨[97], []⟩ [97] [98] (by decide)).1
      ⟨[35, 120], [([97], [⟨111, 64⟩])]⟩ [⟨111, 64⟩] (by decide)).1,
   ((c4_nick_renames_members ⟨[97], []⟩ [97] [98] (by decide)).1
      ⟨[35, 120], [([97], [⟨111, 64⟩])]⟩ [⟨111, 64⟩] (by decide)).2,
   (c4_nick_renames_members ⟨[97], []⟩ [97] [98] (by decide)).2.2 rfl⟩

/-- The downstream-connection state the backlog machinery reads: the
downstream nick, the client name from the raw username, the enabled caps,
and the bound network id (none in multi-network mode). -/
structure downstreamConn where
  nick : Str
  clientName : String
  caps : List (String × Bool)
  networkID : Option Int

/-- isOurNick: compare under the network casemap against the current
upstream nick when connected, else against the configured nick. -/
def isOurNick (net : network) (nick : Str) : Bool :=
  match net.conn with
  | some c => decide (net.casemap nick = c.nickCM)
  | none => decide (net.casemap nick = net.casemap net.Nick)

/-- The partial casemap applied to entity names in wire output: apply the
full casemap only to bytes that are not ASCII letters, preserving the typed
case of letters. -/
def casemapPartial (higher : Str → Str) (name : Str) : Str :=
  (name.zip (higher name)).map
    (fun p =>
      if (65 ≤ p.1 ∧ p.1 ≤ 90) ∨ (97 ≤ p.1 ∧ p.1 ≤ 122) then p.1 else p.2)

/-- downstreamConn.marshalEntity: the downstream name of an upstream
entity; our own nick becomes the downstream nick, and in multi-network
mode other entities get a slash and the network display name appended. -/
def marshalEntity (dc : downstreamConn) (net : network) (name : Str) : Str :=
  if isOurNick net name then dc.nick
  else
    let name2 := casemapPartial net.casemap name
    match dc.networkID with
    | some _ => name2
    | none => name2 ++ [47] ++ net.name

/-- downstreamConn.marshalUserPrefix on the modelled name part of a message
source: our own nick becomes the downstream prefix, others are partially
casemapped and suffixed in multi-network mode. -/
def marshalUserSource (dc : downstreamConn) (net : network) (src : Option Str) :
    Option Str :=
  match src with
  | none => none
  | some nm =>
    if isOurNick net nm then some dc.nick
    else
      let nm2 := casemapPartial net.casemap nm
      match dc.networkID with
      | some _ => some nm2
      | none => some (nm2 ++ [47] ++ net.name)

/-- Replace parameter i of a parameter list by f of it (the Go code indexes
the slice directly; history messages always carry the parameter). -/
def mapParam (ps : List Str) (i : Nat) (f : Str → Str) : List Str :=
  ps.set i (f (ps.getD i []))

/-- downstreamConn.marshalMessage: re-format a message coming from an
upstream for this downstream: marshal the source, and marshal the entity
parameters of the log-able commands (the source panics on any other
command; the call sites modelled here only pass PRIVMSG and NOTICE). -/
def marshalMessage (dc : downstreamConn) (net : network) (msg : Message) :
    Message :=
  let msg1 := { msg with source := marshalUserSource dc net msg.source }
  if msg.command = "PRIVMSG" ∨ msg.command = "NOTICE" ∨ msg.command = "TAGMSG" ∨
      msg.command = "NICK" ∨ msg.command = "JOIN" ∨ msg.command = "PART" ∨
      msg.command = "TOPIC" then
    { msg1 with params := mapParam msg1.params 0 (marshalEntity dc net) }
  else if msg.command = "KICK" then
    { msg1 with
      params := mapParam (mapParam msg1.params 0 (marshalEntity dc net)) 1
        (marshalEntity dc net) }
  else msg1

/-- downstreamConn.messageSupportsHistory: only PRIVMSG and NOTICE can be
replayed as part of a history batch. -/
def messageSupportsHistory (msg : Message) : Bool :=
  decide (msg.command = "PRIVMSG" ∨ msg.command = "NOTICE")

/-- network.isHighlight on a message: PRIVMSG or NOTICE whose text mentions
our nick between word boundaries and whose sender is not ourselves. The Go
call runs the unbounded highlight loop; we give it enough fuel for every
terminating case and read a diverging run (empty nick, claim C10) as
false. -/
def network.isHighlight (net : network) (msg : Message) : Bool :=
  if msg.command ≠ "PRIVMSG" ∧ msg.command ≠ "NOTICE" then false
  else
    let text := msg.params.getD 1 []
    let nick := match net.conn with
      | some c => c.nick
      | none => net.Nick
    decide (msg.source.getD [] ≠ nick) &&
      ((isHighlightFuel (text.length + 1) text nick).getD false)

/-- network.detachedMessageNeedsRelay: relay when the channel filter is
message, or when it is highlight or default and the message is a
highlight. -/
def network.detachedMessageNeedsRelay (net : network) (ch : Channel)
    (msg : Message) : Bool :=
  decide (ch.RelayDetached = dbFilter.filterMessage) ||
    (decide (ch.RelayDetached = dbFilter.filterHighlight ∨
        ch.RelayDetached = dbFilter.filterDefault) && net.isHighlight msg)

/-- Events emitted towards one downstream during backlog replay. -/
inductive backlogEvent
  | batchOpen (target : Str)
  | forward (msg : Message)
  | relayNotice (text : Str)
  | batchClose
  deriving DecidableEq

/-- downstreamConn.relayDetachedMessage: a PRIVMSG or NOTICE replayed to a
detached channel is summarized as a service NOTICE naming the channel,
sender and text. -/
def relayDetachedMessage (dc : downstreamConn) (net : network) (msg : Message) :
    List backlogEvent :=
  if msg.command ≠ "PRIVMSG" ∧ msg.command ≠ "NOTICE" then []
  else
    let sender := msg.source.getD []
    let target := msg.params.getD 0 []
    let text := msg.params.getD 1 []
    if net.isHighlight msg then
      [backlogEvent.relayNotice
        (strBytes "highlight in " ++ marshalEntity dc net target ++
          strBytes ": <" ++ sender ++ strBytes "> " ++ text)]
    else
      [backlogEvent.relayNotice
        (strBytes "message in " ++ marshalEntity dc net target ++
          strBytes ": <" ++ sender ++ strBytes "> " ++ text)]

/-- The last n entries of a list. -/
def takeLastN {α : Type} (n : Nat) (l : List α) : List α :=
  l.drop (l.length - n)

/-- The log entries strictly after the entry carrying the given ID (empty
when the ID does not occur). -/
def entriesAfterID (log : List (Str × Message)) (msgID : Str) :
    List (Str × Message) :=
  (log.dropWhile (fun p => !decide (p.1 = msgID))).drop 1

/-- msgstore LoadLatestID. Modelled from the spec: the message store is an
external collaborator keeping an append-only per-target log; LoadLatestID
returns the latest messages with ID greater than msgID, at most limit of
them. Log order is ID order. -/
def LoadLatestID (log : List (Str × Message)) (msgID : Str) (limit : Nat) :
    List (Str × Message) :=
  takeLastN limit (entriesAfterID log msgID)

/-- msgstore LastMsgID. Modelled from the spec: the ID of the latest entry
of the target log, or none when there is none. -/
def LastMsgID (log : List (Str × Message)) : Option Str :=
  log.getLast?.map Prod.fst

/-- Forwarding one replayed history message: tag it with the history batch
reference when the batch cap is on, marshal it, and push it through
SendMessage (which may further downgrade it). -/
def backlogForward (dc : downstreamConn) (net : network) (msg : Message) :
    List backlogEvent :=
  match SendMessage dc.caps (marshalMessage dc net
      (if capEnabled dc.caps "batch" then
        { msg with tags := mapSet msg.tags "batch" (strBytes "history") }
      else msg)) with
  | none => []
  | some m2 => [backlogEvent.forward m2]

/-- One history entry of downstreamConn.sendTargetBacklog: drop messages
that do not support history; for a detached channel, at most relay a
service NOTICE; otherwise forward. -/
def sendTargetBacklogItem (dc : downstreamConn) (net : network)
    (ch : Option Channel) (msg : Message) : List backlogEvent :=
  if messageSupportsHistory msg = false then []
  else
    match ch with
    | some c =>
      if c.Detached then
        if net.detachedMessageNeedsRelay c msg then relayDetachedMessage dc net msg
        else []
      else backlogForward dc net msg
    | none => backlogForward dc net msg

/-- downstreamConn.sendTargetBacklog: load at most 4000 messages after
msgID from the target log, frame them in a chathistory batch when the batch
cap is on, and emit each through sendTargetBacklogItem. The log argument is
the message-store log of the casemapped target; clients with
draft-chathistory get nothing. -/
def sendTargetBacklog (dc : downstreamConn) (net : network)
    (log : List (Str × Message)) (target : Str) (msgID : Str) :
    List backlogEvent :=
  if capEnabled dc.caps "draft/chathistory" then []
  else
    let ch := net.channels.Value target
    let history := LoadLatestID log msgID 4000
    (if capEnabled dc.caps "batch" then
      [backlogEvent.batchOpen (marshalEntity dc net target)]
    else []) ++
    history.flatMap (fun p => sendTargetBacklogItem dc net ch p.2) ++
    (if capEnabled dc.caps "batch" then [backlogEvent.batchClose] else [])

/-- The per-target body of the backlog replay loop in
downstreamConn.welcome, run for each target of a bound network when this
downstream is the first connected client bearing its client name: read the
delivered ID, replay the backlog from it, then fast-forward the delivered
ID to the store LastMsgID (skipped when the store has no last ID). -/
def welcomeBacklogTarget (dc : downstreamConn) (net : network)
    (log : List (Str × Message)) (target : Str) :
    network × List backlogEvent :=
  if net.delivered.LoadID target dc.clientName = ([] : Str) then (net, [])
  else
    match LastMsgID log with
    | none =>
      (net, sendTargetBacklog dc net log target
        (net.delivered.LoadID target dc.clientName))
    | some lastID =>
      ({ net with delivered := net.delivered.StoreID target dc.clientName lastID },
        sendTargetBacklog dc net log target
          (net.delivered.LoadID target dc.clientName))

/-- Per-target delivery pointers of the earlier revision of the network
struct (networkHistory): client name to message ID. -/
structure networkHistory where
  clients : List (String × Str)
  deriving DecidableEq

/-- The earlier revision of the network struct, as used by produce and
appendLog: persistent channel records and history keyed by plain name (no
casemap in this revision), and the set of offline client names. -/
structure networkOld where
  channels : List (Str × Channel)
  history : List (Str × networkHistory)
  offlineClients : List (String × Unit)

/-- A downstream connection as seen by produce: its id, client name and
caps. -/
structure downstreamInfo where
  id : Nat
  clientName : String
  caps : List (String × Bool)

/-- The state produce and appendLog touch: the per-entity message-store
logs (none when the user has no message store), the network, and the
connected downstreams. -/
structure upstreamState where
  msgStore : Option (List (Str × List (Str × Message)))
  net : networkOld
  downstreams : List downstreamInfo

/-- The log of an entity in the message store of a state (empty without a
store). -/
def msgStoreLog (st : upstreamState) (entity : Str) : List (Str × Message) :=
  match st.msgStore with
  | none => []
  | some store => (mapFind? store entity).getD []

/-- msgstore LastMsgID for the earlier revision, reading a store value
directly. Modelled from the spec as in LastMsgID above. -/
def storeLastMsgID (store : List (Str × List (Str × Message))) (entity : Str) :
    Str :=
  ((mapFind? store entity).getD []).getLast?.map Prod.fst |>.getD []

/-- upstreamConn.appendLog (earlier revision): without a message store
return the empty ID; otherwise, on first contact with the entity create its
networkHistory seeded with the store last ID for every offline client (and,
when the entity names a detached channel, for every connected client too),
then append the message to the store and return its new internal ID (the
ID scheme of the store is immaterial; we use the log position). -/
def appendLog (st : upstreamState) (entity : Str) (msg : Message) :
    upstreamState × Str :=
  match st.msgStore with
  | none => (st, [])
  | some store =>
    let detached := match mapFind? st.net.channels entity with
      | some ch => ch.Detached
      | none => false
    let st1 : upstreamState :=
      match mapFind? st.net.history entity with
      | some _ => st
      | none =>
        let lastID := storeLastMsgID store entity
        let clients0 := st.net.offlineClients.foldl
          (fun acc p => mapSet acc p.1 lastID) []
        let clients1 := if detached then
            st.downstreams.foldl (fun acc dc => mapSet acc dc.clientName lastID)
              clients0
          else clients0
        { st with net :=
          { st.net with history := mapSet st.net.history entity ⟨clients1⟩ } }
    let log := (mapFind? store entity).getD []
    let msgID : Str := [log.length]
    ({ st1 with msgStore := some (mapSet store entity (log ++ [(msgID, msg)])) },
      msgID)

/-- What produce emits towards one downstream: a delivery (the message is
sent, then a receipt PING when it carries an ID), or a silent advance of
the delivery pointer for an origin without echo-message. -/
inductive produceEvent
  | deliver (dcID : Nat) (msg : Message) (msgID : Str)
  | advance (dcID : Nat) (msgID : Str)
  deriving DecidableEq

/-- The forEachDownstream loop of produce: the origin without echo-message
only advances its delivery pointer, every other downstream is delivered the
message. -/
def produceForward (st1 : upstreamState) (msg : Message) (msgID : Str)
    (origin : Option Nat) : List produceEvent :=
  st1.downstreams.map (fun dc =>
    if origin ≠ some dc.id ∨ capEnabled dc.caps "echo-message" then
      produceEvent.deliver dc.id msg msgID
    else produceEvent.advance dc.id msgID)

/-- The tail of produce after logging: do not forward when the target names
a detached channel. -/
def produceAfterLog (st1 : upstreamState) (msgID : Str) (target : Str)
    (msg : Message) (origin : Option Nat) : upstreamState × List produceEvent :=
  match mapFind? st1.net.channels target with
  | some ch =>
    if ch.Detached then (st1, [])
    else (st1, produceForward st1 msg msgID origin)
  | none => (st1, produceForward st1 msg msgID origin)

/-- upstreamConn.produce: append the message to the logs (for a non-empty
target), then, unless the target names a detached channel, forward it to
every connected downstream. -/
def produce (st : upstreamState) (target : Str) (msg : Message)
    (origin : Option Nat) : upstreamState × List produceEvent :=
  let r := if target ≠ [] then appendLog st target msg else (st, [])
  produceAfterLog r.1 r.2 target msg origin


theorem appendLog_channels (st : upstreamState) (entity : Str) (msg : Message) :
    (appendLog st entity msg).1.net.channels = st.net.channels := by
  unfold appendLog
  cases hs : st.msgStore with
  | none => rfl
  | some store =>
    cases hh : mapFind? st.net.history entity with
    | some _ => rfl
    | none => rfl

theorem appendLog_log (st : upstreamState) (entity : Str) (msg : Message)
    (store : List (Str × List (Str × Message))) (hs : st.msgStore = some store) :
    msgStoreLog (appendLog st entity msg).1 entity =
      msgStoreLog st entity ++ [([(msgStoreLog st entity).length], msg)] := by
  unfold appendLog
  rw [hs]
  simp only
  cases hh : mapFind? st.net.history entity with
  | some _ =>
    simp only [msgStoreLog, hs, mapFind?_set_self, Option.getD_some]
  | none =>
    simp only
    split <;> simp only [msgStoreLog, hs, mapFind?_set_self, Option.getD_some]

theorem relayDetachedMessage_no_forward (dc : downstreamConn) (net : network)
    (msg : Message) (m : Message) :
    backlogEvent.forward m ∉ relayDetachedMessage dc net msg := by
  unfold relayDetachedMessage
  split_ifs <;> simp


theorem produceAfterLog_detached (st1 : upstreamState) (msgID : Str)
    (target : Str) (msg : Message) (origin : Option Nat) (ch : Channel)
    (hch : mapFind? st1.net.channels target = some ch)
    (hdet : ch.Detached = true) :
    produceAfterLog st1 msgID target msg origin = (st1, []) := by
  unfold produceAfterLog
  split
  · rename_i ch2 heq
    rw [hch] at heq
    injection heq with heq
    subst heq
    rw [if_pos hdet]
  · rename_i heq
    rw [hch] at heq
    exact Option.noConfusion heq

theorem produce_eq_of_ne (st : upstreamState) (target : Str) (msg : Message)
    (origin : Option Nat) (ht : target ≠ []) :
    produce st target msg origin =
      produceAfterLog (appendLog st target msg).1 (appendLog st target msg).2
        target msg origin := by
  unfold produce
  rw [if_pos (by simpa using ht)]

/-- Claim C2: a message produced for a target whose persistent channel
record is detached is never sent to any downstream: produce appends it to
the log and emits nothing, and during backlog replay no message of a
detached channel is forwarded (at most a service NOTICE relay appears). -/
theorem c2_detached_never_forwarded :
    (∀ (st : upstreamState) (target : Str) (msg : Message)
       (origin : Option Nat) (ch : Channel),
      mapFind? st.net.channels target = some ch → ch.Detached = true →
      (produce st target msg origin).2 = [] ∧
      (∀ store, st.msgStore = some store → target ≠ [] →
        (msgStoreLog (produce st target msg origin).1 target).map Prod.snd =
          (msgStoreLog st target).map Prod.snd ++ [msg])) ∧
    (∀ (dc : downstreamConn) (net : network) (log : List (Str × Message))
       (target msgID : Str) (ch : Channel),
      net.channels.Value target = some ch → ch.Detached = true →
      ∀ m : Message,
        backlogEvent.forward m ∉ sendTargetBacklog dc net log target msgID) := by
  constructor
  · intro st target msg origin ch hch hdet
    by_cases ht : target = []
    · have hp : produce st target msg origin = produceAfterLog st [] target msg origin := by
        unfold produce
        rw [if_neg (by simpa using ht)]
      rw [hp, produceAfterLog_detached st [] target msg origin ch hch hdet]
      exact ⟨rfl, fun store hs htarget => absurd ht htarget⟩
    · have hch2 : mapFind? (appendLog st target msg).1.net.channels target = some ch := by
        rw [appendLog_channels]
        exact hch
      rw [produce_eq_of_ne st target msg origin ht,
        produceAfterLog_detached _ _ target msg origin ch hch2 hdet]
      refine ⟨rfl, fun store hs htarget => ?_⟩
      rw [appendLog_log st target msg store hs]
      simp
  · intro dc net log target msgID ch hch hdet m
    unfold sendTargetBacklog
    by_cases hcap : capEnabled dc.caps "draft/chathistory" = true
    · rw [if_pos hcap]
      simp
    · rw [if_neg hcap]
      simp only [List.mem_append]
      rintro ((hmem | hmem) | hmem)
      · revert hmem
        split <;> simp
      · rw [List.mem_flatMap] at hmem
        obtain ⟨p, hp, hev⟩ := hmem
        unfold sendTargetBacklogItem at hev
        rw [hch] at hev
        split at hev
        · simp at hev
        · simp only at hev
          rw [if_pos hdet] at hev
          split at hev
          · exact relayDetachedMessage_no_forward dc net p.2 m hev
          · simp at hev
      · revert hmem
        split <;> simp

/-- Witness for claim C2 at a concrete state: a detached channel hash-x;
produce emits nothing yet appends to the log, and the backlog replay of
hash-x forwards nothing. -/
theorem c2_detached_never_forwarded_witness :
    (produce
      ⟨some [([35, 120], [])],
        ⟨[([35, 120], ⟨[35, 120], true, dbFilter.filterNone⟩)], [], []⟩,
        [⟨1, "laptop", []⟩]⟩
      [35, 120] ⟨[], some [98], "PRIVMSG", [[35, 120], [104, 105]]⟩ none).2 = [] ∧
    (msgStoreLog (produce
      ⟨some [([35, 120], [])],
        ⟨[([35, 120], ⟨[35, 120], true, dbFilter.filterNone⟩)], [], []⟩,
        [⟨1, "laptop", []⟩]⟩
      [35, 120] ⟨[], some [98], "PRIVMSG", [[35, 120], [104, 105]]⟩ none).1
        [35, 120]).map Prod.snd =
      (msgStoreLog
        ⟨some [([35, 120], [])],
          ⟨[([35, 120], ⟨[35, 120], true, dbFilter.filterNone⟩)], [], []⟩,
          [⟨1, "laptop", []⟩]⟩ [35, 120]).map Prod.snd ++
        [⟨[], some [98], "PRIVMSG", [[35, 120], [104, 105]]⟩] ∧
    backlogEvent.forward ⟨[], some [98], "PRIVMSG", [[35, 120], [104, 105]]⟩ ∉
      sendTargetBacklog ⟨[98, 111, 98], "laptop", [], none⟩
        ⟨7, [110], [97], none, casemapASCII,
          (newCasemapMap Channel).SetValue [35, 120]
            ⟨[35, 120], true, dbFilter.filterNone⟩,
          newDeliveredStore⟩
        [([1], ⟨[], some [98], "PRIVMSG", [[35, 120], [104, 105]]⟩),
         ([2], ⟨[], some [99], "NOTICE", [[35, 120], [104, 111]]⟩)]
        [35, 120] [1] :=
  ⟨(c2_detached_never_forwarded.1
      ⟨some [([35, 120], [])],
        ⟨[([35, 120], ⟨[35, 120], true, dbFilter.filterNone⟩)], [], []⟩,
        [⟨1, "laptop", []⟩]⟩
      [35, 120] ⟨[], some [98], "PRIVMSG", [[35, 120], [104, 105]]⟩ none
      ⟨[35, 120], true, dbFilter.filterNone⟩ (by decide) rfl).1,
   (c2_detached_never_forwarded.1
      ⟨some [([35, 120], [])],
        ⟨[([35, 120], ⟨[35, 120], true, dbFilter.filterNone⟩)], [], []⟩,
        [⟨1, "laptop", []⟩]⟩
      [35, 120] ⟨[], some [98], "PRIVMSG", [[35, 120], [104, 105]]⟩ none
      ⟨[35, 120], true, dbFilter.filterNone⟩ (by decide) rfl).2
      [([35, 120], [])] rfl (by decide),
   c2_detached_never_forwarded.2 ⟨[98, 111, 98], "laptop", [], none⟩
      ⟨7, [110], [97], none, casemapASCII,
        (newCasemapMap Channel).SetValue [35, 120]
          ⟨[35, 120], true, dbFilter.filterNone⟩,
        newDeliveredStore⟩
      [([1], ⟨[], some [98], "PRIVMSG", [[35, 120], [104, 105]]⟩),
       ([2], ⟨[], some [99], "NOTICE", [[35, 120], [104, 111]]⟩)]
      [35, 120] [1] ⟨[35, 120], true, dbFilter.filterNone⟩ (by decide) rfl
      ⟨[], some [98], "PRIVMSG", [[35, 120], [104, 105]]⟩⟩

theorem entriesAfterID_split (pre post : List (Str × Message)) (m : Str)
    (mm : Message) (hpre : ∀ p ∈ pre, p.1 ≠ m) :
    entriesAfterID (pre ++ (m, mm) :: post) m = post := by
  induction pre with
  | nil =>
    unfold entriesAfterID
    simp [List.dropWhile]
  | cons q t ih =>
    unfold entriesAfterID at ih ⊢
    rw [List.cons_append, List.dropWhile_cons]
    have hq : q.1 ≠ m := hpre q (List.mem_cons_self q t)
    simp only [hq, decide_False, Bool.not_false, if_true]
    exact ih (fun p hp => hpre p (List.mem_cons_of_mem q hp))

theorem takeLastN_length_le {α : Type} (n : Nat) (l : List α) :
    (takeLastN n l).length ≤ n := by
  unfold takeLastN
  rw [List.length_drop]
  omega

theorem takeLastN_subset {α : Type} (n : Nat) (l : List α) :
    ∀ p ∈ takeLastN n l, p ∈ l := by
  intro p hp
  exact List.drop_subset _ l hp

theorem marshalMessage_command (dc : downstreamConn) (net : network)
    (msg : Message) : (marshalMessage dc net msg).command = msg.command := by
  unfold marshalMessage
  split_ifs <;> rfl

theorem SendMessage_command (caps : List (String × Bool)) (msg m2 : Message)
    (h : SendMessage caps msg = some m2) : m2.command = msg.command := by
  unfold SendMessage at h
  by_cases hmt : capEnabled caps "message-tags" = true
  · simp only [hmt, if_true] at h
    split at h
    · injection h with h
      rw [← h]
    · injection h with h
      rw [← h]
  · simp only [hmt, Bool.false_eq_true, if_false] at h
    by_cases htag : msg.command = "TAGMSG"
    · simp [htag] at h
    · simp only [htag, if_false] at h
      split at h
      · injection h with h
        rw [← h]
      · injection h with h
        rw [← h]

theorem backlogForward_command (dc : downstreamConn) (net : network)
    (msg mf : Message) (h : backlogEvent.forward mf ∈ backlogForward dc net msg) :
    mf.command = msg.command := by
  unfold backlogForward at h
  by_cases hb : capEnabled dc.caps "batch" = true
  · rw [if_pos hb] at h
    split at h
    · simp at h
    · rename_i m2 heq
      simp only [List.mem_singleton] at h
      injection h with h
      subst h
      rw [SendMessage_command _ _ _ heq, marshalMessage_command]
  · rw [if_neg hb] at h
    split at h
    · simp at h
    · rename_i m2 heq
      simp only [List.mem_singleton] at h
      injection h with h
      subst h
      rw [SendMessage_command _ _ _ heq, marshalMessage_command]

theorem sendTargetBacklogItem_forward (dc : downstreamConn) (net : network)
    (ch : Option Channel) (msg mf : Message)
    (h : backlogEvent.forward mf ∈ sendTargetBacklogItem dc net ch msg) :
    messageSupportsHistory msg = true ∧ mf.command = msg.command := by
  unfold sendTargetBacklogItem at h
  split at h
  · simp at h
  · rename_i hsup
    constructor
    · revert hsup
      cases messageSupportsHistory msg <;> simp
    · split at h
      · rename_i c
        split at h
        · split at h
          · exact absurd h (relayDetachedMessage_no_forward dc net msg mf)
          · simp at h
        · exact backlogForward_command dc net msg mf h
      · exact backlogForward_command dc net msg mf h

theorem sendTargetBacklog_forward_command (dc : downstreamConn)
    (net : network) (log : List (Str × Message)) (target msgID : Str)
    (mf : Message)
    (h : backlogEvent.forward mf ∈ sendTargetBacklog dc net log target msgID) :
    mf.command = "PRIVMSG" ∨ mf.command = "NOTICE" := by
  unfold sendTargetBacklog at h
  by_cases hcap : capEnabled dc.caps "draft/chathistory" = true
  · rw [if_pos hcap] at h
    simp at h
  · rw [if_neg hcap] at h
    simp only [List.mem_append] at h
    rcases h with ((h | h) | h)
    · revert h
      split <;> simp
    · rw [List.mem_flatMap] at h
      obtain ⟨p, hp, hev⟩ := h
      obtain ⟨hsup, hcmd⟩ := sendTargetBacklogItem_forward dc net _ p.2 mf hev
      rw [hcmd]
      unfold messageSupportsHistory at hsup
      exact of_decide_eq_true hsup
    · revert h
      split <;> simp

/-- Claim C5: replaying the backlog of a target for the first client
bearing a client name (per-target body of welcome, with the stored
delivered ID m present in the log) loads at most 4000 entries, all of them
strictly newer than m (the store log is in ID order), forwards only PRIVMSG
and NOTICE messages, and finally stores the store LastMsgID as the new
delivered ID for (target, clientName). -/
theorem c5_backlog_replay (dc : downstreamConn) (net : network)
    (log : List (Str × Message)) (target : Str) (m : Str) (mm : Message)
    (pre post : List (Str × Message))
    (hm : net.delivered.LoadID target dc.clientName = m)
    (hne : m ≠ [])
    (hlog : log = pre ++ (m, mm) :: post)
    (hpre : ∀ p ∈ pre, p.1 ≠ m) :
    (LoadLatestID log m 4000).length ≤ 4000 ∧
    (∀ p ∈ LoadLatestID log m 4000, p ∈ post) ∧
    (∀ mf : Message,
      backlogEvent.forward mf ∈ (welcomeBacklogTarget dc net log target).2 →
      mf.command = "PRIVMSG" ∨ mf.command = "NOTICE") ∧
    (welcomeBacklogTarget dc net log target).1.delivered.LoadID target
      dc.clientName = (LastMsgID log).getD [] := by
  refine ⟨?_, ?_, ?_, ?_⟩
  · unfold LoadLatestID
    exact takeLastN_length_le 4000 (entriesAfterID log m)
  · intro p hp
    unfold LoadLatestID at hp
    rw [hlog, entriesAfterID_split pre post m mm hpre] at hp
    exact takeLastN_subset 4000 post p hp
  · intro mf hmf
    unfold welcomeBacklogTarget at hmf
    rw [hm, if_neg hne] at hmf
    split at hmf
    · exact sendTargetBacklog_forward_command dc net log target _ mf hmf
    · exact sendTargetBacklog_forward_command dc net log target _ mf hmf
  · unfold welcomeBacklogTarget
    rw [hm, if_neg hne]
    have hnenil : log ≠ [] := by
      rw [hlog]
      intro hc
      exact List.cons_ne_nil (m, mm) post (List.append_eq_nil.mp hc).2
    cases hlast : LastMsgID log with
    | none =>
      exfalso
      unfold LastMsgID at hlast
      cases hgl : log.getLast? with
      | none => exact hnenil (List.getLast?_eq_none_iff.mp hgl)
      | some q =>
        rw [hgl] at hlast
        simp at hlast
    | some lid =>
      simp only
      rw [deliveredStore.LoadID_StoreID]
      rfl

/-- Witness for claim C5: client laptop with delivered ID 1 on target
hash-x; the log holds message 1 (already delivered) and message 2; replay
loads within the cap, stays after ID 1, forwards only PRIVMSG and NOTICE,
and fast-forwards the delivered ID to the store LastMsgID. -/
theorem c5_backlog_replay_witness :
    (LoadLatestID
      [([1], ⟨[], some [99], "PRIVMSG", [[35, 120], [104, 105]]⟩),
       ([2], ⟨[], some [99], "NOTICE", [[35, 120], [104, 111]]⟩)]
      [1] 4000).length ≤ 4000 ∧
    (∀ p ∈ LoadLatestID
      [([1], ⟨[], some [99], "PRIVMSG", [[35, 120], [104, 105]]⟩),
       ([2], ⟨[], some [99], "NOTICE", [[35, 120], [104, 111]]⟩)]
      [1] 4000,
      p ∈ [([2], ⟨[], some [99], "NOTICE", [[35, 120], [104, 111]]⟩)]) ∧
    (∀ mf : Message,
      backlogEvent.forward mf ∈ (welcomeBacklogTarget
        ⟨[98, 111, 98], "laptop", [], none⟩
        ⟨7, [110], [97], none, casemapASCII, newCasemapMap Channel,
          newDeliveredStore.StoreID [35, 120] "laptop" [1]⟩
        [([1], ⟨[], some [99], "PRIVMSG", [[35, 120], [104, 105]]⟩),
         ([2], ⟨[], some [99], "NOTICE", [[35, 120], [104, 111]]⟩)]
        [35, 120]).2 →
      mf.command = "PRIVMSG" ∨ mf.command = "NOTICE") ∧
    (welcomeBacklogTarget
        ⟨[98, 111, 98], "laptop", [], none⟩
        ⟨7, [110], [97], none, casemapASCII, newCasemapMap Channel,
          newDeliveredStore.StoreID [35, 120] "laptop" [1]⟩
        [([1], ⟨[], some [99], "PRIVMSG", [[35, 120], [104, 105]]⟩),
         ([2], ⟨[], some [99], "NOTICE", [[35, 120], [104, 111]]⟩)]
        [35, 120]).1.delivered.LoadID [35, 120] "laptop" =
      (LastMsgID
        [([1], ⟨[], some [99], "PRIVMSG", [[35, 120], [104, 105]]⟩),
         ([2], ⟨[], some [99], "NOTICE", [[35, 120], [104, 111]]⟩)]).getD [] :=
  c5_backlog_replay ⟨[98, 111, 98], "laptop", [], none⟩
    ⟨7, [110], [97], none, casemapASCII, newCasemapMap Channel,
      newDeliveredStore.StoreID [35, 120] "laptop" [1]⟩
    [([1], ⟨[], some [99], "PRIVMSG", [[35, 120], [104, 105]]⟩),
     ([2], ⟨[], some [99], "NOTICE", [[35, 120], [104, 111]]⟩)]
    [35, 120] [1] ⟨[], some [99], "PRIVMSG", [[35, 120], [104, 105]]⟩
    [] [([2], ⟨[], some [99], "NOTICE", [[35, 120], [104, 111]]⟩)]
    (by decide) (by decide) rfl (by decide)

/-- A pending LIST of one downstream: the originating downstream id and the
pending LIST commands keyed by network id. -/
structure pendingLIST where
  downstreamID : Nat
  pendingCommands : List (Int × Message)
  deriving DecidableEq

/-- upstreamConn.endPendingLISTs, iterating user.pendingLISTs for the
upstream of network netID: remove this network's entry from the matching
pending LISTs (all of them when all is true, only the first otherwise);
whenever a pending LIST runs out of pending commands it is removed from the
list and its downstream is sent one synthesized RPL_LISTEND. Returns the
new pending list, the downstream ids sent RPL_LISTEND, and the found flag.
(The bookkeeping of pendingLISTDownstreamSet and the trySendLIST retrigger
on the not-all path touch only the send-throttling state and are not
modelled.) -/
def endPendingLISTsGo (netID : Int) (all : Bool) :
    List pendingLIST → List pendingLIST × List Nat × Bool
  | [] => ([], [], false)
  | pl :: rest =>
    match mapFind? pl.pendingCommands netID with
    | none =>
      (pl :: (endPendingLISTsGo netID all rest).1,
       (endPendingLISTsGo netID all rest).2.1,
       (endPendingLISTsGo netID all rest).2.2)
    | some _ =>
      if (mapErase pl.pendingCommands netID).isEmpty then
        if all then
          ((endPendingLISTsGo netID all rest).1,
           pl.downstreamID :: (endPendingLISTsGo netID all rest).2.1,
           true)
        else (rest, [pl.downstreamID], true)
      else
        if all then
          ({ pl with pendingCommands := mapErase pl.pendingCommands netID } ::
            (endPendingLISTsGo netID all rest).1,
           (endPendingLISTsGo netID all rest).2.1,
           true)
        else
          ({ pl with pendingCommands := mapErase pl.pendingCommands netID } ::
            rest, [], true)

/-- The RPL_LISTEND (323) and ERR_UNKNOWNCOMMAND (421) / RPL_TRYAGAIN (263)
for LIST cases of upstreamConn.handleMessage: each completes this
network's pending LIST via endPendingLISTs(false). The result is none when
the message is none of these completions. -/
def handleListCompletion (netID : Int) (pls : List pendingLIST)
    (msg : Message) : Option (List pendingLIST × List Nat × Bool) :=
  if msg.command = "323" then some (endPendingLISTsGo netID false pls)
  else if (msg.command = "421" ∨ msg.command = "263") ∧
      msg.params.getD 1 [] = strBytes "LIST" then
    some (endPendingLISTsGo netID false pls)
  else none

theorem endPendingLISTsGo_first (netID : Int) (pre : List pendingLIST)
    (pl : pendingLIST) (post : List pendingLIST) (cmd : Message)
    (hpre : ∀ q ∈ pre, mapFind? q.pendingCommands netID = none)
    (hpl : mapFind? pl.pendingCommands netID = some cmd) :
    endPendingLISTsGo netID false (pre ++ pl :: post) =
      if (mapErase pl.pendingCommands netID).isEmpty then
        (pre ++ post, [pl.downstreamID], true)
      else
        (pre ++ { pl with pendingCommands := mapErase pl.pendingCommands netID }
          :: post, [], true) := by
  induction pre with
  | nil =>
    simp only [List.nil_append]
    unfold endPendingLISTsGo
    rw [hpl]
    simp
  | cons q t ih =>
    have hq := hpre q (List.mem_cons_self q t)
    simp only [List.cons_append]
    unfold endPendingLISTsGo
    rw [hq]
    simp only
    rw [ih (fun p hp => hpre p (List.mem_cons_of_mem q hp))]
    cases hif : (mapErase pl.pendingCommands netID).isEmpty <;>
      simp [hif]

/-- Claim C6: an upstream RPL_LISTEND (or ERR_UNKNOWNCOMMAND / RPL_TRYAGAIN
complaining about LIST) removes exactly this upstream's entry from the
first pending LIST that holds one, leaves every other entry alone, and
exactly when that map becomes empty the pending LIST is dropped and its
originating downstream is sent one synthesized RPL_LISTEND; a single
completion never emits more than one RPL_LISTEND. -/
theorem c6_list_fanin (netID : Int) (pre : List pendingLIST) (pl : pendingLIST)
    (post : List pendingLIST) (cmd msg : Message)
    (hpre : ∀ q ∈ pre, mapFind? q.pendingCommands netID = none)
    (hpl : mapFind? pl.pendingCommands netID = some cmd)
    (hmsg : msg.command = "323" ∨ ((msg.command = "421" ∨ msg.command = "263") ∧
      msg.params.getD 1 [] = strBytes "LIST")) :
    handleListCompletion netID (pre ++ pl :: post) msg =
      some (if (mapErase pl.pendingCommands netID).isEmpty then
          (pre ++ post, [pl.downstreamID], true)
        else
          (pre ++ { pl with pendingCommands := mapErase pl.pendingCommands netID }
            :: post, [], true)) ∧
    (endPendingLISTsGo netID false (pre ++ pl :: post)).2.1.length ≤ 1 := by
  have he := endPendingLISTsGo_first netID pre pl post cmd hpre hpl
  constructor
  · unfold handleListCompletion
    rcases hmsg with h323 | ⟨hcmd, hlist⟩
    · rw [if_pos h323, he]
    · have hne : ¬ msg.command = "323" := by
        rcases hcmd with h | h <;> rw [h] <;> decide
      rw [if_neg hne, if_pos ⟨hcmd, hlist⟩, he]
  · rw [he]
    cases hif : (mapErase pl.pendingCommands netID).isEmpty <;> simp [hif]

/-- Witness for claim C6: downstream 9 has a pending LIST holding only
network 1; RPL_LISTEND from that network empties the map, removes the
pending LIST and emits exactly one synthesized RPL_LISTEND to downstream
9, while the unrelated pending LIST of downstream 8 is untouched. -/
theorem c6_list_fanin_witness :
    handleListCompletion 1
      [⟨9, [(1, ⟨[], none, "LIST", []⟩)]⟩, ⟨8, [(2, ⟨[], none, "LIST", []⟩)]⟩]
      ⟨[], none, "323", []⟩ =
      some (if (mapErase [(1, (⟨[], none, "LIST", []⟩ : Message))] 1).isEmpty then
          ([] ++ [⟨8, [(2, ⟨[], none, "LIST", []⟩)]⟩], [9], true)
        else
          ([] ++ (⟨9, mapErase [(1, (⟨[], none, "LIST", []⟩ : Message))] 1⟩ :
            pendingLIST) :: [⟨8, [(2, ⟨[], none, "LIST", []⟩)]⟩], [], true)) ∧
    (endPendingLISTsGo 1 false
      [⟨9, [(1, ⟨[], none, "LIST", []⟩)]⟩,
       ⟨8, [(2, ⟨[], none, "LIST", []⟩)]⟩]).2.1.length ≤ 1 :=
  c6_list_fanin 1 [] ⟨9, [(1, ⟨[], none, "LIST", []⟩)]⟩
    [⟨8, [(2, ⟨[], none, "LIST", []⟩)]⟩] ⟨[], none, "LIST", []⟩
    ⟨[], none, "323", []⟩ (by decide) (by decide) (Or.inl rfl)

/-- registrationError as consumed by network.run, which calls Temporary()
and Reason() on it: the registration numeric and the error text. (One
revision in the sources declares it as a bare string of the text; the
numeric is what the classification reads.) -/
structure registrationError where
  command : String
  text : Str
  deriving DecidableEq

/-- registrationError.Temporary. Modelled from the spec: registration
errors are permanent unless the numeric is NICKNAMEINUSE (433),
NICKCOLLISION (436) or UNAVAILRESOURCE (437), which are temporary. -/
def registrationError.Temporary (e : registrationError) : Bool :=
  decide (e.command = "433" ∨ e.command = "436" ∨ e.command = "437")

/-- The registration numerics case of upstreamConn.handleMessage:
PASSWDMISMATCH (464), ERRONEUSNICKNAME (432), NICKNAMEINUSE (433),
NICKCOLLISION (436), UNAVAILRESOURCE (437), NOPERMFORHOST (463) and
YOUREBANNEDCREEP (465) raise a registrationError carrying the trailing
parameter while the connection is not yet registered; after RPL_WELCOME
they fall through to the default case (none here). -/
def handleRegistrationNumeric (registered : Bool) (msg : Message) :
    Option registrationError :=
  if (msg.command = "464" ∨ msg.command = "432" ∨ msg.command = "433" ∨
      msg.command = "436" ∨ msg.command = "437" ∨ msg.command = "463" ∨
      msg.command = "465") ∧ registered = false then
    some ⟨msg.command, msg.params.getLastD []⟩
  else none

/-- An error returned by runConn to network.run: a registration error, or
any other failure text. -/
inductive connError
  | regError (e : registrationError)
  | other (text : String)

/-- The retry decision of network.run: every connection error is retried
with backoff except a registrationError that is not temporary, which makes
the run loop return (the network stays present but idle). -/
def networkRunRetries : connError → Bool
  | .regError e => e.Temporary
  | .other _ => true

/-- Claim C3: every registration numeric raised before RPL_WELCOME carries
the temporary-or-permanent classification: ERRONEUSNICKNAME (432),
PASSWDMISMATCH (464), NOPERMFORHOST (463) and YOUREBANNEDCREEP (465) are
permanent, terminating the network run loop, while NICKNAMEINUSE (433),
NICKCOLLISION (436) and UNAVAILRESOURCE (437) are temporary, so the loop
retries with backoff. -/
theorem c3_registration_error_classification (msg : Message)
    (hmsg : msg.command = "464" ∨ msg.command = "432" ∨ msg.command = "433" ∨
      msg.command = "436" ∨ msg.command = "437" ∨ msg.command = "463" ∨
      msg.command = "465") :
    handleRegistrationNumeric false msg =
      some ⟨msg.command, msg.params.getLastD []⟩ ∧
    (networkRunRetries
        (connError.regError ⟨msg.command, msg.params.getLastD []⟩) = false ↔
      (msg.command = "464" ∨ msg.command = "432" ∨ msg.command = "463" ∨
        msg.command = "465")) := by
  constructor
  · unfold handleRegistrationNumeric
    rw [if_pos ⟨hmsg, rfl⟩]
  · unfold networkRunRetries registrationError.Temporary
    rcases hmsg with h | h | h | h | h | h | h <;> rw [h] <;> simp

/-- Witness for claim C3: a PASSWDMISMATCH (464) before registration raises
a registration error and terminates the run loop. -/
theorem c3_registration_error_classification_witness :
    handleRegistrationNumeric false ⟨[], none, "464", [[98]]⟩ =
      some ⟨"464", ([[98]] : List Str).getLastD []⟩ ∧
    (networkRunRetries
        (connError.regError ⟨"464", ([[98]] : List Str).getLastD []⟩) = false ↔
      (("464" : String) = "464" ∨ ("464" : String) = "432" ∨
        ("464" : String) = "463" ∨ ("464" : String) = "465")) :=
  c3_registration_error_classification ⟨[], none, "464", [[98]]⟩ (Or.inl rfl)
